import Mathlib

/-
Verification of the Bitstream Configuration & Transport Layer of the
faad2-wasm repository.

The JavaScript sources are shallowly embedded as Lean functions:
  * faad2_node_decoder.js   (decoder class: SAMPLE_RATE, _extractASC,
    _stripADTS, configure, decode, decodeInt16, decodePlanar)
  * pkg/lab/decode_mp4_complete.js  (ASC synthesis from a codec string,
    MPEG-4 descriptor length decoding)
  * pkg/lab/test_heaac_v2.js        (parseADTS)

Machine integers are modelled as Nat with explicit masking where the source
relies on JavaScript 32-bit semantics; JS floats that carry PCM samples are
modelled as rationals; fallible paths return Option.  The opaque WASM engine
is a parameter: `packed` is the int32 status returned by _decode_frame and
`engineOut i` is the i-th float the engine wrote into the output region.
-/

namespace Faad2

/-- The sample-rate table hard-coded at the top of faad2_node_decoder.js
(`SAMPLE_RATE = {1:8000, 2:16000, ..., 9:96000}`).  A lookup of any other
index is `undefined` in JS and the decoder coalesces it to 0 via `|| 0`,
hence the default branch. -/
def SAMPLE_RATE (idx : ℕ) : ℕ :=
  match idx with
  | 1 => 8000
  | 2 => 16000
  | 3 => 22050
  | 4 => 32000
  | 5 => 44100
  | 6 => 48000
  | 7 => 64000
  | 8 => 88200
  | 9 => 96000
  | _ => 0

/-- Modelled from the spec: the canonical sample-rate table of spec section 6
(index to Hz), written down only to compare the decoder against it; indices
13 and 14 are reserved and 15 is the escape, mapped to 0 here. -/
def specSampleRateTable (idx : ℕ) : ℕ :=
  match idx with
  | 0 => 96000
  | 1 => 88200
  | 2 => 64000
  | 3 => 48000
  | 4 => 44100
  | 5 => 32000
  | 6 => 24000
  | 7 => 22050
  | 8 => 16000
  | 9 => 12000
  | 10 => 11025
  | 11 => 8000
  | 12 => 7350
  | _ => 0

/-- The `sampleRates` array used by the lab scripts
(decode_mp4_complete.js and test_heaac_v2.js). -/
def sampleRates : List ℕ :=
  [96000, 88200, 64000, 48000, 44100, 32000, 24000, 22050, 16000, 12000,
   11025, 8000, 7350]

/-- Index of a rate in `sampleRates`: JS `indexOf` yields -1 when the rate is
absent and the scripts replace -1 by the escape value 15; `List.indexOf`
yields the list length in that case, so the length is mapped to 15. -/
def ascIndex (r : ℕ) : ℕ :=
  let i := sampleRates.indexOf r
  if i = sampleRates.length then 15 else i

/-- The ASC synthesis of extractAudioWithMP4Box (decode_mp4_complete.js,
lines 113-145) once the codec string has matched `mp4a.40.<objectType>`.
For object type 5 it emits the 4-byte record; otherwise the 2-byte record.
The core rate is `sampleRate / 2` computed on JS floats, so an odd rate
yields a fractional value that is never in the integer table and falls to
the escape index 15.  Each Buffer store masks with 0xFF. -/
def ascForMP4BoxCodec (objectType sampleRate channels : ℕ) : List ℕ :=
  let sampleRateIndex := ascIndex sampleRate
  if objectType = 5 then
    let coreSampleRateIndex := if 2 ∣ sampleRate then ascIndex (sampleRate / 2) else 15
    [((objectType <<< 3) ||| (coreSampleRateIndex >>> 1)) &&& 0xFF,
     (((coreSampleRateIndex &&& 0x1) <<< 7) ||| (channels <<< 3) ||| 0x04) &&& 0xFF,
     0x56,
     (0xE5 ||| (sampleRateIndex <<< 3)) &&& 0xFF]
  else
    [((objectType <<< 3) ||| (sampleRateIndex >>> 1)) &&& 0xFF,
     (((sampleRateIndex &&& 0x1) <<< 7) ||| (channels <<< 3)) &&& 0xFF]

/-- The ASC built by testMP4NativeDecode (decode_mp4_complete.js, lines
222-239) for the codec string `mp4a.40.5`: a 2-byte record for object type
AAC-LC (2) with the sampling-frequency index hard-coded to 7 (22050 Hz),
independent of the track sample rate. -/
def ascImplicitHE (channels : ℕ) : List ℕ :=
  let sampleRateIndex := 7
  [((2 <<< 3) ||| (sampleRateIndex >>> 1)) &&& 0xFF,
   (((sampleRateIndex &&& 0x1) <<< 7) ||| (channels <<< 3)) &&& 0xFF]

/-- A heap of outstanding engine-owned allocations: each live region is a
pair of pointer id and requested size; `next` is the next fresh pointer. -/
structure Heap where
  live : List (ℕ × ℕ)
  next : ℕ

def Heap.init : Heap := ⟨[], 0⟩

/-- Model of module._malloc: returns a fresh pointer and records the region. -/
def heapAlloc (h : Heap) (size : ℕ) : ℕ × Heap :=
  (h.next, ⟨(h.next, size) :: h.live, h.next + 1⟩)

/-- Model of module._free: drops the region with the given pointer. -/
def heapFree (h : Heap) (p : ℕ) : Heap :=
  ⟨h.live.eraseP (fun e => e.1 == p), h.next⟩

/-- faad2_node_decoder._stripADTS: drop the 7- or 9-byte ADTS header when the
12-bit syncword 0xFFF is present at the start of the frame. -/
def stripADTS (aacData : List ℕ) : List ℕ :=
  if 7 ≤ aacData.length ∧
      ((aacData.getD 0 0) <<< 4) ||| ((aacData.getD 1 0) >>> 4) = 0xFFF then
    if (aacData.getD 1 0) &&& 0x01 ≠ 0 then aacData.drop 7 else aacData.drop 9
  else aacData

/-- The structured result of faad2_node_decoder.decode: interleaved PCM,
sample rate in Hz, channel count, and `samplesPerChannel = samples /
numChannels`, a JS float division kept as a rational (it is fractional when
the counts do not divide; the JS value for a zero channel count is Infinity,
outside this model and outside every property proved below). -/
structure DecodeResult where
  pcm : List ℚ
  sampleRate : ℕ
  channels : ℕ
  samplesPerChannel : ℚ

/-- faad2_node_decoder.decode (lines 145-194) with the opaque engine
abstracted by `packed` and `engineOut`.  The function threads the
allocation heap: input region of `rawAAC.length + 64` bytes, worst-case
output region, unconditional free of the input after the engine call, free
of the output on both the no-output and the success path. -/
def decodeRun (h : Heap) (frameData : List ℕ) (packed : ℤ) (engineOut : ℕ → ℚ) :
    Heap × Option DecodeResult :=
  let rawAAC := stripADTS frameData
  let pad := 64
  let (inPtr, h1) := heapAlloc h (rawAAC.length + pad)
  let maxFrames := 2048 * 2
  let maxChannels := 2
  let maxSamples := maxFrames * maxChannels
  let outputSize := maxSamples * 4
  let (outPtr, h2) := heapAlloc h1 outputSize
  let h3 := heapFree h2 inPtr
  if packed ≤ 0 then
    (heapFree h3 outPtr, none)
  else
    let p := packed.toNat
    let samplerateIndex := (p >>> 28) &&& 0xf
    let numChannels := (p >>> 24) &&& 0xf
    let samples := p &&& 0xffffff
    let samplerate := SAMPLE_RATE samplerateIndex
    let numFrames : ℚ := (samples : ℚ) / (numChannels : ℚ)
    let pcm := (List.range samples).map engineOut
    (heapFree h3 outPtr,
     some { pcm := pcm, sampleRate := samplerate, channels := numChannels,
            samplesPerChannel := numFrames })

/-- The value a single decode call returns (second component of decodeRun). -/
def decode (frameData : List ℕ) (packed : ℤ) (engineOut : ℕ → ℚ) :
    Option DecodeResult :=
  (decodeRun Heap.init frameData packed engineOut).2

/-- Truncation toward zero of a rational, as JS ToIntegerOrInfinity does on
the stored number. -/
def ratTrunc (q : ℚ) : ℤ :=
  if 0 ≤ q then ((q.num.toNat / q.den : ℕ) : ℤ)
  else -(((-q.num).toNat / q.den : ℕ) : ℤ)

/-- The int16 coercion performed by an Int16Array store: truncate toward
zero, then wrap modulo 2^16 into [-32768, 32767]. -/
def toInt16 (v : ℚ) : ℤ :=
  ((ratTrunc v + 32768) % 65536) - 32768

structure Int16Result where
  pcm : List ℤ
  sampleRate : ℕ
  channels : ℕ
  samplesPerChannel : ℚ

/-- faad2_node_decoder.decodeInt16 (lines 201-216): decode, then map each
float sample through `Math.max(-1, Math.min(1, s)) * 32767` and store it in
an Int16Array. -/
def decodeInt16 (frameData : List ℕ) (packed : ℤ) (engineOut : ℕ → ℚ) :
    Option Int16Result :=
  match decode frameData packed engineOut with
  | none => none
  | some r =>
    some { pcm := r.pcm.map (fun s => toInt16 (max (-1) (min 1 s) * 32767)),
           sampleRate := r.sampleRate, channels := r.channels,
           samplesPerChannel := r.samplesPerChannel }

/-- Number of loop iterations that actually land inside the typed array in
decodePlanar: the Float32Array length is the truncation of the (possibly
fractional) samplesPerChannel, and JS silently drops out-of-range stores. -/
def jsFloorCount (q : ℚ) : ℕ := q.num.toNat / q.den

structure PlanarResult where
  channelData : List (List ℚ)
  sampleRate : ℕ
  channels : ℕ

/-- faad2_node_decoder.decodePlanar (lines 223-241): decode, then
de-interleave `pcm` into `channels` arrays with
`channelData[ch][i] = pcm[i * channels + ch]`. -/
def decodePlanar (frameData : List ℕ) (packed : ℤ) (engineOut : ℕ → ℚ) :
    Option PlanarResult :=
  match decode frameData packed engineOut with
  | none => none
  | some r =>
    let n := jsFloorCount r.samplesPerChannel
    some { channelData :=
             (List.range r.channels).map
               (fun ch => (List.range n).map
                 (fun i => r.pcm.getD (i * r.channels + ch) 0)),
           sampleRate := r.sampleRate, channels := r.channels }

/-- faad2_node_decoder._extractASC (lines 58-84): from an ADTS frame build
the 2-byte ASC out of the header fields; otherwise take the first two bytes
as the ASC; a buffer shorter than 2 bytes throws (`none`). -/
def extractASC (aacData : List ℕ) : Option (List ℕ) :=
  if 7 ≤ aacData.length ∧
      ((aacData.getD 0 0) <<< 4) ||| ((aacData.getD 1 0) >>> 4) = 0xFFF then
    let profile := (((aacData.getD 2 0) >>> 6) &&& 0x03) + 1
    let sampleRateIndex := ((aacData.getD 2 0) >>> 2) &&& 0x0F
    let channelConfig := (((aacData.getD 2 0) &&& 0x01) <<< 2) |||
                         (((aacData.getD 3 0) >>> 6) &&& 0x03)
    some [((profile <<< 3) ||| (sampleRateIndex >>> 1)) &&& 0xFF,
          (((sampleRateIndex &&& 0x01) <<< 7) ||| (channelConfig <<< 3)) &&& 0xFF]
  else if 2 ≤ aacData.length then some (aacData.take 2)
  else none

/-- The ASC-selection step of faad2_node_decoder.configure (lines 108-118):
the configuration record handed to module._init_decoder is the automatic
extraction only when autoDetect holds and the buffer is strictly longer
than 2 bytes, and the caller-supplied buffer itself otherwise. -/
def configureAsc (ascOrFirstFrame : List ℕ) (autoDetect : Bool) :
    Option (List ℕ) :=
  if autoDetect = true ∧ 2 < ascOrFirstFrame.length then
    extractASC ascOrFirstFrame
  else some ascOrFirstFrame

/-- The expandable descriptor-length decoder of extractAudioFromMP4
(decode_mp4_complete.js, the `do size = (size << 7) | (byte & 0x7F) while
(byte & 0x80)` loops): reads bytes while the high bit is set, accumulating
7 bits per byte; reading past the end of the buffer throws (`none`).  The
JS accumulator is a 32-bit value, modelled by the modulus; every input
considered below stays under 2^31, where signed and unsigned agree. -/
def readDescLen : List ℕ → ℕ → Option (ℕ × List ℕ)
  | [], _ => none
  | b :: rest, acc =>
    let acc2 := ((acc <<< 7) ||| (b &&& 0x7F)) % 2 ^ 32
    if b &&& 0x80 ≠ 0 then readDescLen rest acc2 else some (acc2, rest)

/-- The record built by parseADTS in test_heaac_v2.js; `dataLength` is an
integer because the source computes `frameLength - headerSize` without a
range check. `sampleRate` is `none` when the JS array lookup is undefined. -/
structure AdtsHeader where
  syncword : ℕ
  profile : ℕ
  sampleRateIndex : ℕ
  sampleRate : Option ℕ
  channelConfig : ℕ
  channels : ℕ
  frameLength : ℕ
  headerSize : ℕ
  protectionAbsent : ℕ
  dataLength : ℤ

/-- parseADTS (test_heaac_v2.js lines 9-38): returns `none` when fewer than
7 bytes remain or the syncword is not 0xFFF, otherwise decodes every header
field. -/
def parseADTS (data : List ℕ) (offset : ℕ) : Option AdtsHeader :=
  if offset + 7 > data.length then none
  else
    let syncword := ((data.getD offset 0) <<< 4) ||| ((data.getD (offset + 1) 0) >>> 4)
    if syncword ≠ 0xFFF then none
    else
      let protectionAbsent := (data.getD (offset + 1) 0) &&& 0x01
      let profile := (((data.getD (offset + 2) 0) >>> 6) &&& 0x03) + 1
      let sampleRateIndex := ((data.getD (offset + 2) 0) >>> 2) &&& 0x0F
      let channelConfig := (((data.getD (offset + 2) 0) &&& 0x01) <<< 2) |||
                           (((data.getD (offset + 3) 0) >>> 6) &&& 0x03)
      let frameLength := (((data.getD (offset + 3) 0) &&& 0x03) <<< 11) |||
                         ((data.getD (offset + 4) 0) <<< 3) |||
                         (((data.getD (offset + 5) 0) >>> 5) &&& 0x07)
      let headerSize := if protectionAbsent ≠ 0 then 7 else 9
      some { syncword := syncword
             profile := profile
             sampleRateIndex := sampleRateIndex
             sampleRate := sampleRates[sampleRateIndex]?
             channelConfig := channelConfig
             channels := if channelConfig = 7 then 8 else channelConfig
             frameLength := frameLength
             headerSize := headerSize
             protectionAbsent := protectionAbsent
             dataLength := (frameLength : ℤ) - (headerSize : ℤ) }

/- Helper lemmas shared by several proofs. -/

theorem and_7f_eq_mod (b : ℕ) : b &&& 0x7F = b % 128 := by
  have h : (0x7F : ℕ) = 2 ^ 7 - 1 := rfl
  rw [h, Nat.and_pow_two_sub_one_eq_mod]

theorem lor_shl7_eq_add (a b : ℕ) (hb : b < 128) :
    (a <<< 7) ||| b = a * 128 + b := by
  rw [Nat.shiftLeft_eq]
  have h := Nat.mul_add_lt_is_or (i := 7) hb a
  rw [Nat.mul_comm] at h
  rw [← h]

theorem descLen_step (acc b : ℕ) (hacc : acc < 2 ^ 25) :
    ((acc <<< 7) ||| (b &&& 0x7F)) % 2 ^ 32 = acc * 128 + b % 128 := by
  rw [and_7f_eq_mod, lor_shl7_eq_add acc (b % 128) (Nat.mod_lt b (by omega))]
  apply Nat.mod_eq_of_lt
  omega

theorem nat_div_le_of_le_mul {a b m : ℕ} (hb : 0 < b) (h : a ≤ m * b) :
    a / b ≤ m :=
  calc a / b ≤ m * b / b := Nat.div_le_div_right h
    _ = m := Nat.mul_div_cancel m hb

/-- The second component of decodeRun, written out. -/
theorem decodeRun_snd (h : Heap) (frameData : List ℕ) (packed : ℤ)
    (engineOut : ℕ → ℚ) :
    (decodeRun h frameData packed engineOut).2 =
      if packed ≤ 0 then none
      else
        some { pcm := (List.range (packed.toNat &&& 0xffffff)).map engineOut
               sampleRate := SAMPLE_RATE ((packed.toNat >>> 28) &&& 0xf)
               channels := (packed.toNat >>> 24) &&& 0xf
               samplesPerChannel :=
                 ((packed.toNat &&& 0xffffff : ℕ) : ℚ) /
                   (((packed.toNat >>> 24) &&& 0xf : ℕ) : ℚ) } := by
  by_cases hp : packed ≤ 0 <;> simp [decodeRun, heapAlloc, heapFree, hp]

/-- The heap after a decodeRun call, on either exit path: both regions the
call allocated have been freed again. -/
theorem decodeRun_fst_live (h : Heap) (frameData : List ℕ) (packed : ℤ)
    (engineOut : ℕ → ℚ) :
    ((decodeRun h frameData packed engineOut).1).live = h.live := by
  by_cases hp : packed ≤ 0 <;>
    simp [decodeRun, heapAlloc, heapFree, hp, List.eraseP_cons]

/-- C7: for codec descriptor mp4a.40.2 at 44100 Hz, 2 channels, the
synthesizer emits exactly the 2-byte ASC [0x12, 0x10]: object type 2 in the
top 5 bits, sampling-frequency index 4 in the next 4 bits, and channel
configuration 2 in the following 4 bits. -/
theorem ascLC_emits_worked_example :
    ascForMP4BoxCodec 2 44100 2 = [0x12, 0x10] ∧
    ((ascForMP4BoxCodec 2 44100 2).getD 0 0) >>> 3 = 2 ∧
    ((((ascForMP4BoxCodec 2 44100 2).getD 0 0) &&& 0x7) <<< 1) |||
      (((ascForMP4BoxCodec 2 44100 2).getD 1 0) >>> 7) = 4 ∧
    (((ascForMP4BoxCodec 2 44100 2).getD 1 0) >>> 3) &&& 0xF = 2 := by
  decide

/-- C4 counterexample: for mp4a.40.5 at 44100 Hz, 2 channels, the ASC
synthesizer of extractAudioWithMP4Box emits a 4-byte record whose leading
5 bits carry object type 5, not the 2-byte AAC-LC record the claim
states. -/
theorem ascHE_counterexample :
    ascForMP4BoxCodec 5 44100 2 = [0x2B, 0x94, 0x56, 0xE5] ∧
    (ascForMP4BoxCodec 5 44100 2).length ≠ 2 ∧
    ((ascForMP4BoxCodec 5 44100 2).getD 0 0) >>> 3 = 5 := by
  decide

/-- C4 amended: the repository has two mp4a.40.5 paths; the
extractAudioWithMP4Box synthesizer halves 44100 to core index 7 but emits
the 4-byte record [0x2B, 0x94, 0x56, 0xE5] carrying object type 5, while
testMP4NativeDecode emits the 2-byte record [0x13, 0x90] for AAC-LC at the
hard-coded index 7 (22050 Hz) without deriving it from the input rate. -/
theorem ascHE_amended :
    ascForMP4BoxCodec 5 44100 2 = [0x2B, 0x94, 0x56, 0xE5] ∧
    ((ascForMP4BoxCodec 5 44100 2).getD 0 0) >>> 3 = 5 ∧
    ((((ascForMP4BoxCodec 5 44100 2).getD 0 0) &&& 0x7) <<< 1) |||
      (((ascForMP4BoxCodec 5 44100 2).getD 1 0) >>> 7) = 7 ∧
    ascIndex (44100 / 2) = 7 ∧
    ascImplicitHE 2 = [0x13, 0x90] ∧
    ((ascImplicitHE 2).getD 0 0) >>> 3 = 2 ∧
    ((((ascImplicitHE 2).getD 0 0) &&& 0x7) <<< 1) |||
      (((ascImplicitHE 2).getD 1 0) >>> 7) = 7 := by
  decide

/-- One step of the descriptor-length loop when the high bit is set: keep
reading. -/
theorem readDescLen_cont (b : ℕ) (rest : List ℕ) (acc : ℕ) (h : b &&& 0x80 ≠ 0) :
    readDescLen (b :: rest) acc =
      readDescLen rest (((acc <<< 7) ||| (b &&& 0x7F)) % 2 ^ 32) := by
  simp only [readDescLen]
  rw [if_pos h]

/-- Final step of the descriptor-length loop when the high bit is clear. -/
theorem readDescLen_last (b : ℕ) (rest : List ℕ) (acc : ℕ) (h : b &&& 0x80 = 0) :
    readDescLen (b :: rest) acc =
      some (((acc <<< 7) ||| (b &&& 0x7F)) % 2 ^ 32, rest) := by
  simp only [readDescLen]
  rw [if_neg (by simp [h])]

/-- C1 counterexample: the packed word 0x31000002 is positive with
sample-rate index 3; the canonical table of the spec maps 3 to 48000 Hz,
but the decoder returns 22050 Hz, the value of its own hard-coded table. -/
theorem decode_sampleRate_canonical_counterexample :
    (decode [] 0x31000002 (fun _ => 0)).map DecodeResult.sampleRate =
      some 22050 ∧
    ((0x31000002 : ℤ).toNat >>> 28) &&& 0xf = 3 ∧
    specSampleRateTable 3 = 48000 ∧
    (decode [] 0x31000002 (fun _ => 0)).map DecodeResult.sampleRate ≠
      some (specSampleRateTable 3) := by
  decide

/-- C1 amended: for every decode call whose packed status word is positive
(as a 32-bit value), the returned sampleRate is given by the decoder's own
table applied to bits 31-28: index 0 maps to 0 (absent from the table),
1 to 8000, 2 to 16000, 3 to 22050, 4 to 32000, 5 to 44100, 6 to 48000 and
7 to 64000; a positive word cannot carry an index above 7. -/
theorem decode_sampleRate_uses_code_table
    (frameData : List ℕ) (packed : ℤ) (engineOut : ℕ → ℚ) (r : DecodeResult)
    (hlt : packed < 2 ^ 31)
    (hres : decode frameData packed engineOut = some r) :
    r.sampleRate =
      [0, 8000, 16000, 22050, 32000, 44100, 48000, 64000].getD
        ((packed.toNat >>> 28) &&& 0xf) 0 := by
  rw [decode, decodeRun_snd] at hres
  by_cases hp : packed ≤ 0
  · rw [if_pos hp] at hres
    exact absurd hres (by simp)
  · rw [if_neg hp] at hres
    have hrec := Option.some.inj hres
    have hnat : packed.toNat < 2 ^ 31 := by omega
    have hmask : (packed.toNat >>> 28) &&& 0xf = packed.toNat >>> 28 := by
      have h4 : (0xf : ℕ) = 2 ^ 4 - 1 := rfl
      rw [h4, Nat.and_pow_two_sub_one_eq_mod, Nat.shiftRight_eq_div_pow]
      omega
    have h8 : packed.toNat >>> 28 < 8 := by
      rw [Nat.shiftRight_eq_div_pow]
      omega
    rw [← hrec]
    simp only [hmask]
    set i := packed.toNat >>> 28 with hidef
    interval_cases i <;> rfl

/-- C1 witness: the amended table theorem applied at the packed word
0x31000002 (index 3, one channel, two samples). -/
theorem decode_sampleRate_uses_code_table_witness :
    (0x31000002 : ℤ) < 2 ^ 31 ∧
    (DecodeResult.mk ((List.range 2).map (fun _ => (0 : ℚ))) 22050 1
        (((2 : ℕ) : ℚ) / ((1 : ℕ) : ℚ))).sampleRate =
      [0, 8000, 16000, 22050, 32000, 44100, 48000, 64000].getD
        (((0x31000002 : ℤ).toNat >>> 28) &&& 0xf) 0 :=
  ⟨by decide,
   decode_sampleRate_uses_code_table [] 0x31000002 (fun _ => 0) _
     (by decide) rfl⟩

/-- C2: every engine-owned region a decode call allocates (padded input and
worst-case output) is released again before the call returns, on the
no-output path and on the success path alike; consequently a sequence of
calls whose packed statuses are all non-positive leaves zero outstanding
engine-owned allocations. -/
theorem decode_releases_engine_allocations :
    (∀ (h : Heap) (frameData : List ℕ) (packed : ℤ) (engineOut : ℕ → ℚ),
      ((decodeRun h frameData packed engineOut).1).live = h.live) ∧
    (∀ (calls : List (List ℕ × ℤ)) (engineOut : ℕ → ℚ),
      (∀ c ∈ calls, c.2 ≤ 0) →
      (calls.foldl (fun h c => (decodeRun h c.1 c.2 engineOut).1)
          Heap.init).live = []) := by
  refine ⟨fun h f p e => decodeRun_fst_live h f p e, ?_⟩
  intro calls engineOut hnp
  have aux : ∀ (cs : List (List ℕ × ℤ)) (h : Heap),
      ((cs.foldl (fun h c => (decodeRun h c.1 c.2 engineOut).1) h).live =
        h.live) := by
    intro cs
    induction cs with
    | nil => intro h; rfl
    | cons c cs ih =>
      intro h
      simp only [List.foldl_cons]
      rw [ih]
      exact decodeRun_fst_live h c.1 c.2 engineOut
  rw [aux]
  rfl

/-- C2 witness: a two-call sequence with non-positive statuses leaves an
empty live set. -/
theorem decode_releases_engine_allocations_witness :
    (∀ c ∈ ([([], -1), ([0x12], 0)] : List (List ℕ × ℤ)), c.2 ≤ 0) ∧
    ((([([], -1), ([0x12], 0)] : List (List ℕ × ℤ)).foldl
        (fun h c => (decodeRun h c.1 c.2 (fun _ => 0)).1) Heap.init).live =
      []) :=
  ⟨by decide,
   decode_releases_engine_allocations.2 [([], -1), ([0x12], 0)] (fun _ => 0)
     (by decide)⟩

/-- C3 counterexample: the positive packed word 0x52000003 decodes to
channel count 2 and total sample count 3, which 2 does not divide; the
decoder still returns a PCM result built from these values instead of
reporting a corrupt-output error. -/
theorem decode_missing_validation_counterexample :
    (decode [] 0x52000003 (fun _ => 0)).isSome = true ∧
    (decode [] 0x52000003 (fun _ => 0)).map DecodeResult.channels = some 2 ∧
    (decode [] 0x52000003 (fun _ => 0)).map (fun r => r.pcm.length) =
      some 3 ∧
    ¬(2 ∣ 3) := by
  decide

/-- C3 amended: decode validates nothing about the packed word: on every
positive status it returns a result whose channel count and sample count
are the raw extracted bit fields, with samplesPerChannel their exact
quotient (fractional when they do not divide); no corrupt-output error
exists in the code. -/
theorem decode_returns_unvalidated_fields
    (frameData : List ℕ) (packed : ℤ) (engineOut : ℕ → ℚ)
    (hpos : 0 < packed) :
    ∃ r, decode frameData packed engineOut = some r ∧
      r.channels = (packed.toNat >>> 24) &&& 0xf ∧
      r.pcm.length = packed.toNat &&& 0xffffff ∧
      r.samplesPerChannel =
        ((packed.toNat &&& 0xffffff : ℕ) : ℚ) /
          (((packed.toNat >>> 24) &&& 0xf : ℕ) : ℚ) := by
  rw [decode, decodeRun_snd, if_neg (by omega)]
  exact ⟨_, rfl, rfl, by simp, rfl⟩

/-- C3 witness: the unvalidated-fields theorem applied at the packed word
0x52000003. -/
theorem decode_returns_unvalidated_fields_witness :
    (0 : ℤ) < 0x52000003 ∧
    (∃ r, decode [] 0x52000003 (fun _ => 0) = some r ∧
      r.channels = ((0x52000003 : ℤ).toNat >>> 24) &&& 0xf ∧
      r.pcm.length = (0x52000003 : ℤ).toNat &&& 0xffffff ∧
      r.samplesPerChannel =
        (((0x52000003 : ℤ).toNat &&& 0xffffff : ℕ) : ℚ) /
          ((((0x52000003 : ℤ).toNat >>> 24) &&& 0xf : ℕ) : ℚ)) :=
  ⟨by decide,
   decode_returns_unvalidated_fields [] 0x52000003 (fun _ => 0) (by decide)⟩

/-- C5 counterexample: a length encoding whose first four bytes all carry
the continuation bit is not rejected: the loop keeps reading a fifth byte
and decodes the value. -/
theorem descLen_fifth_byte_counterexample :
    readDescLen [0x81, 0x80, 0x80, 0x80, 0x00] 0 = some (2 ^ 28, []) ∧
    (readDescLen [0x81, 0x80, 0x80, 0x80, 0x00] 0).isSome = true := by
  decide

/-- C5 amended: for encodings of one to four bytes the decoded length is
the big-endian concatenation of the low 7 bits of each byte; but an
encoding whose first four bytes all carry the continuation bit is not
rejected: the loop keeps accumulating into the fifth byte. -/
theorem descLen_decodes_concatenation :
    (∀ (b0 : ℕ) (rest : List ℕ), b0 &&& 0x80 = 0 →
      readDescLen (b0 :: rest) 0 = some (b0 % 128, rest)) ∧
    (∀ (b0 b1 : ℕ) (rest : List ℕ), b0 &&& 0x80 ≠ 0 → b1 &&& 0x80 = 0 →
      readDescLen (b0 :: b1 :: rest) 0 =
        some ((b0 % 128) * 128 + b1 % 128, rest)) ∧
    (∀ (b0 b1 b2 : ℕ) (rest : List ℕ),
      b0 &&& 0x80 ≠ 0 → b1 &&& 0x80 ≠ 0 → b2 &&& 0x80 = 0 →
      readDescLen (b0 :: b1 :: b2 :: rest) 0 =
        some ((b0 % 128) * 128 ^ 2 + (b1 % 128) * 128 + b2 % 128, rest)) ∧
    (∀ (b0 b1 b2 b3 : ℕ) (rest : List ℕ),
      b0 &&& 0x80 ≠ 0 → b1 &&& 0x80 ≠ 0 → b2 &&& 0x80 ≠ 0 → b3 &&& 0x80 = 0 →
      readDescLen (b0 :: b1 :: b2 :: b3 :: rest) 0 =
        some ((b0 % 128) * 128 ^ 3 + (b1 % 128) * 128 ^ 2 +
          (b2 % 128) * 128 + b3 % 128, rest)) ∧
    readDescLen [0x81, 0x80, 0x80, 0x80, 0x00] 0 = some (2 ^ 28, []) := by
  refine ⟨?_, ?_, ?_, ?_, by decide⟩
  · intro b0 rest h0
    rw [readDescLen_last _ _ _ h0, descLen_step 0 b0 (by norm_num)]
    norm_num
  · intro b0 b1 rest h0 h1
    rw [readDescLen_cont _ _ _ h0, descLen_step 0 b0 (by norm_num),
      readDescLen_last _ _ _ h1, descLen_step _ b1 (by omega)]
    norm_num
  · intro b0 b1 b2 rest h0 h1 h2
    rw [readDescLen_cont _ _ _ h0, descLen_step 0 b0 (by norm_num),
      readDescLen_cont _ _ _ h1, descLen_step _ b1 (by omega),
      readDescLen_last _ _ _ h2, descLen_step _ b2 (by omega)]
    simp only [Option.some.injEq, Prod.mk.injEq]
    exact ⟨by ring, trivial⟩
  · intro b0 b1 b2 b3 rest h0 h1 h2 h3
    rw [readDescLen_cont _ _ _ h0, descLen_step 0 b0 (by norm_num),
      readDescLen_cont _ _ _ h1, descLen_step _ b1 (by omega),
      readDescLen_cont _ _ _ h2, descLen_step _ b2 (by omega),
      readDescLen_last _ _ _ h3, descLen_step _ b3 (by omega)]
    simp only [Option.some.injEq, Prod.mk.injEq]
    exact ⟨by ring, trivial⟩

/-- C5 witness: the concatenation theorem applied to the two-byte encoding
[0x81, 0x02], which decodes to 130. -/
theorem descLen_decodes_concatenation_witness :
    ((0x81 : ℕ) &&& 0x80 ≠ 0) ∧ ((0x02 : ℕ) &&& 0x80 = 0) ∧
    readDescLen [0x81, 0x02] 0 =
      some ((0x81 % 128) * 128 + 0x02 % 128, []) :=
  ⟨by decide, by decide,
   descLen_decodes_concatenation.2.1 0x81 0x02 [] (by decide) (by decide)⟩

/-- A header whose dataLength is the difference of frameLength and
headerSize is negative whenever the former is below the latter. -/
theorem adts_dataLength_neg (h : AdtsHeader)
    (he : h.dataLength = (h.frameLength : ℤ) - (h.headerSize : ℤ))
    (hlt : h.frameLength < h.headerSize) : h.dataLength < 0 := by
  omega

/-- C6 counterexample: seven bytes with a valid syncword but frame length 0
are recognized as a header, and the parser returns it with the negative
dataLength -7 instead of reporting a malformed frame. -/
theorem parseADTS_negative_dataLength_counterexample :
    (parseADTS [0xFF, 0xF1, 0x00, 0x00, 0x00, 0x00, 0x00] 0).isSome =
      true ∧
    (parseADTS [0xFF, 0xF1, 0x00, 0x00, 0x00, 0x00, 0x00] 0).map
      AdtsHeader.frameLength = some 0 ∧
    (parseADTS [0xFF, 0xF1, 0x00, 0x00, 0x00, 0x00, 0x00] 0).map
      AdtsHeader.headerSize = some 7 ∧
    (parseADTS [0xFF, 0xF1, 0x00, 0x00, 0x00, 0x00, 0x00] 0).map
      AdtsHeader.dataLength = some (-7) := by
  decide

/-- C6 amended: whenever the parser recognizes a header (at least 7 bytes
remain and the syncword is 0xFFF) it returns the header record with
dataLength equal to frameLength minus headerSize, with no range check, so
the dataLength is negative exactly when frameLength is below headerSize. -/
theorem parseADTS_returns_header_without_length_check
    (data : List ℕ) (offset : ℕ)
    (hlen : offset + 7 ≤ data.length)
    (hsync : ((data.getD offset 0) <<< 4) |||
      ((data.getD (offset + 1) 0) >>> 4) = 0xFFF) :
    ∃ h, parseADTS data offset = some h ∧
      h.dataLength = (h.frameLength : ℤ) - (h.headerSize : ℤ) ∧
      (h.frameLength < h.headerSize → h.dataLength < 0) := by
  rw [parseADTS, if_neg (by omega)]
  rw [if_neg (not_ne_iff.mpr hsync)]
  exact ⟨_, rfl, rfl, fun hlt => adts_dataLength_neg _ rfl hlt⟩

/-- C6 witness: the no-length-check theorem applied to the zero-length
frame bytes of the counterexample. -/
theorem parseADTS_returns_header_without_length_check_witness :
    ((0 : ℕ) + 7 ≤
      ([0xFF, 0xF1, 0x00, 0x00, 0x00, 0x00, 0x00] : List ℕ).length) ∧
    (∃ h, parseADTS [0xFF, 0xF1, 0x00, 0x00, 0x00, 0x00, 0x00] 0 = some h ∧
      h.dataLength = (h.frameLength : ℤ) - (h.headerSize : ℤ) ∧
      (h.frameLength < h.headerSize → h.dataLength < 0)) :=
  ⟨by decide,
   parseADTS_returns_header_without_length_check
     [0xFF, 0xF1, 0x00, 0x00, 0x00, 0x00, 0x00] 0 (by decide) (by decide)⟩

/-- C10: a buffer of at most 2 bytes is handed to the engine initialization
unchanged even with autoDetect on; automatic ASC extraction is attempted
exactly for buffers strictly longer than 2 bytes. -/
theorem configure_short_buffer_passthrough :
    (∀ buf : List ℕ, buf.length ≤ 2 → configureAsc buf true = some buf) ∧
    (∀ buf : List ℕ, 2 < buf.length → configureAsc buf true = extractASC buf) := by
  constructor
  · intro buf h
    rw [configureAsc, if_neg (by simp; omega)]
  · intro buf h
    rw [configureAsc, if_pos ⟨rfl, h⟩]

/-- C10 witness: the pass-through theorem applied to the bare 2-byte ASC
[0x12, 0x10]. -/
theorem configure_short_buffer_passthrough_witness :
    (([0x12, 0x10] : List ℕ).length ≤ 2) ∧
    configureAsc [0x12, 0x10] true = some [0x12, 0x10] :=
  ⟨by decide, configure_short_buffer_passthrough.1 [0x12, 0x10] (by decide)⟩

/-- Truncation toward zero of a rational lies in [-m, m] whenever the
rational does. -/
theorem ratTrunc_bounds (q : ℚ) (m : ℕ) (hlo : -(m : ℚ) ≤ q)
    (hhi : q ≤ (m : ℚ)) :
    -(m : ℤ) ≤ ratTrunc q ∧ ratTrunc q ≤ (m : ℤ) := by
  have hd : 0 < q.den := q.pos
  have hhi2 : q.num ≤ ((m * q.den : ℕ) : ℤ) := by
    have h2 : q ≤ ((m : ℤ) : ℚ) := by push_cast; exact hhi
    rw [Rat.le_def] at h2
    push_cast
    simpa using h2
  have hlo2 : -((m * q.den : ℕ) : ℤ) ≤ q.num := by
    have h2 : ((-(m : ℤ) : ℤ) : ℚ) ≤ q := by push_cast; exact hlo
    rw [Rat.le_def] at h2
    push_cast
    simpa using h2
  constructor
  · unfold ratTrunc
    by_cases h0 : 0 ≤ q
    · rw [if_pos h0]
      have hge := Int.natCast_nonneg (q.num.toNat / q.den)
      omega
    · rw [if_neg h0]
      have hb : (-q.num).toNat ≤ m * q.den := by omega
      have hdiv : (-q.num).toNat / q.den ≤ m := nat_div_le_of_le_mul hd hb
      omega
  · unfold ratTrunc
    by_cases h0 : 0 ≤ q
    · rw [if_pos h0]
      have hnn : 0 ≤ q.num := Rat.num_nonneg.mpr h0
      have hb : q.num.toNat ≤ m * q.den := by omega
      have hdiv : q.num.toNat / q.den ≤ m := nat_div_le_of_le_mul hd hb
      omega
    · rw [if_neg h0]
      have hge := Int.natCast_nonneg ((-q.num).toNat / q.den)
      omega

/-- The quantized value of a clamped and scaled sample stays within
[-32767, 32767]; in particular -32768 is never produced. -/
theorem toInt16_clamped_bounds (s : ℚ) :
    -32767 ≤ toInt16 (max (-1) (min 1 s) * 32767) ∧
    toInt16 (max (-1) (min 1 s) * 32767) ≤ 32767 := by
  have hc1 : (-1 : ℚ) ≤ max (-1) (min 1 s) := le_max_left _ _
  have hc2 : max (-1) (min 1 s) ≤ 1 := max_le (by norm_num) (min_le_left _ _)
  have hv1 : -((32767 : ℕ) : ℚ) ≤ max (-1) (min 1 s) * 32767 := by
    push_cast
    nlinarith
  have hv2 : max (-1) (min 1 s) * 32767 ≤ ((32767 : ℕ) : ℚ) := by
    push_cast
    nlinarith
  have hb := ratTrunc_bounds (max (-1) (min 1 s) * 32767) 32767 hv1 hv2
  unfold toInt16
  omega

/-- C9: whenever decodeInt16 returns a result, every element of its pcm
array lies in [-32767, 32767] (so -32768 is never produced), and its
sampleRate, channels, samplesPerChannel and pcm length agree with the ones
decode returns on the same frame. -/
theorem decodeInt16_range_and_consistency
    (frameData : List ℕ) (packed : ℤ) (engineOut : ℕ → ℚ)
    (r16 : Int16Result)
    (hres : decodeInt16 frameData packed engineOut = some r16) :
    (∀ x ∈ r16.pcm, -32767 ≤ x ∧ x ≤ 32767) ∧
    (∃ r, decode frameData packed engineOut = some r ∧
      r16.sampleRate = r.sampleRate ∧ r16.channels = r.channels ∧
      r16.samplesPerChannel = r.samplesPerChannel ∧
      r16.pcm.length = r.pcm.length) := by
  unfold decodeInt16 at hres
  cases hd : decode frameData packed engineOut with
  | none =>
    rw [hd] at hres
    exact absurd hres (by simp)
  | some r =>
    rw [hd] at hres
    have hr := Option.some.inj hres
    subst hr
    constructor
    · intro x hx
      simp only [List.mem_map] at hx
      obtain ⟨s, hs, rfl⟩ := hx
      exact toInt16_clamped_bounds s
    · exact ⟨r, rfl, rfl, rfl, rfl, by simp⟩

/-- C9 witness: the range theorem applied to the one-sample frame decoded
from the packed word 0x51000001 with an all-zero output region. -/
theorem decodeInt16_range_and_consistency_witness :
    (∀ x ∈ (Int16Result.mk
        [toInt16 (max (-1) (min 1 (0 : ℚ)) * 32767)] 44100 1
        (((1 : ℕ) : ℚ) / ((1 : ℕ) : ℚ))).pcm,
      -32767 ≤ x ∧ x ≤ 32767) ∧
    (∃ r, decode [] 0x51000001 (fun _ => 0) = some r ∧
      44100 = r.sampleRate ∧ 1 = r.channels ∧
      (((1 : ℕ) : ℚ) / ((1 : ℕ) : ℚ)) = r.samplesPerChannel ∧
      1 = r.pcm.length) :=
  decodeInt16_range_and_consistency [] 0x51000001 (fun _ => 0) _ rfl

/-- C8: whenever decode returns a result with channel count c and an
integral samplesPerChannel n, decodePlanar on the same frame returns c
channel arrays of length n with channelData[ch][i] = pcm[i * c + ch], and
the same sampleRate and channel count; when decode returns no output,
decodePlanar returns no output. -/
theorem decodePlanar_deinterleaves
    (frameData : List ℕ) (packed : ℤ) (engineOut : ℕ → ℚ) :
    (∀ (r : DecodeResult) (c n : ℕ),
      decode frameData packed engineOut = some r →
      r.channels = c → 1 ≤ c → r.samplesPerChannel = (n : ℚ) →
      ∃ pr, decodePlanar frameData packed engineOut = some pr ∧
        pr.sampleRate = r.sampleRate ∧ pr.channels = c ∧
        pr.channelData.length = c ∧
        (∀ ch, ch < c →
          (pr.channelData.getD ch []).length = n ∧
          ∀ i, i < n →
            (pr.channelData.getD ch []).getD i 0 =
              r.pcm.getD (i * c + ch) 0)) ∧
    (decode frameData packed engineOut = none →
      decodePlanar frameData packed engineOut = none) := by
  constructor
  · intro r c n hres hc hc1 hn
    have hcount : jsFloorCount r.samplesPerChannel = n := by
      rw [hn]
      simp [jsFloorCount, Rat.num_natCast, Rat.den_natCast]
    refine ⟨{ channelData :=
                (List.range c).map (fun ch => (List.range n).map
                  (fun i => r.pcm.getD (i * c + ch) 0)),
              sampleRate := r.sampleRate, channels := c }, ?_, rfl, rfl, ?_, ?_⟩
    · unfold decodePlanar
      rw [hres]
      simp only [hcount, hc]
    · simp
    · intro ch hch
      constructor
      · simp [List.getD, hch]
      · intro i hi
        simp [List.getD, hch, hi]
  · intro hnone
    unfold decodePlanar
    rw [hnone]

/-- C8 witness: the de-interleaving theorem applied to the packed word
0x52000004 (two channels, four samples) with the output region holding
0, 1, 2, 3. -/
theorem decodePlanar_deinterleaves_witness :
    ∃ pr, decodePlanar [] 0x52000004 (fun i => (i : ℚ)) = some pr ∧
      pr.sampleRate =
        (DecodeResult.mk ((List.range 4).map (fun i => (i : ℚ))) 44100 2
          (((4 : ℕ) : ℚ) / ((2 : ℕ) : ℚ))).sampleRate ∧
      pr.channels = 2 ∧
      pr.channelData.length = 2 ∧
      (∀ ch, ch < 2 →
        (pr.channelData.getD ch []).length = 2 ∧
        ∀ i, i < 2 →
          (pr.channelData.getD ch []).getD i 0 =
            (DecodeResult.mk ((List.range 4).map (fun i => (i : ℚ))) 44100 2
              (((4 : ℕ) : ℚ) / ((2 : ℕ) : ℚ))).pcm.getD (i * 2 + ch) 0) :=
  (decodePlanar_deinterleaves [] 0x52000004 (fun i => (i : ℚ))).1
    (DecodeResult.mk ((List.range 4).map (fun i => (i : ℚ))) 44100 2
      (((4 : ℕ) : ℚ) / ((2 : ℕ) : ℚ)))
    2 2 rfl rfl (by norm_num) (by norm_num)

end Faad2
